import Mathlib

deriving instance DecidableEq for Except

/-!
Verification of the plugify (wizard-era) package/plugin runtime against its
natural-language specification.  The definitions below are a shallow
embedding of the C++ sources:

* `src/core/package_manager.cpp` — local/remote catalogue loading,
  dependency resolution, archive extraction;
* `src/core/plugify_provider.cpp` — the provider facade;
* `src/core/plugin.h` — descriptor file extensions;
* `include/plugify/jit/callback.cpp` — the JIT callback trampoline;
* `src/utils/http_downloader_winhttp.cpp` — the WinHTTP backend.

Filesystem paths are modelled as an absolute flag plus a component list,
with `std::filesystem`-style append, extension, and lexical
normalisation.  Machine integers (versions, HTTP statuses) are modelled
as `Int`; fallible operations return `Except`.
-/

namespace Plugify

/-! ## Filesystem paths (`std::filesystem::path`, POSIX semantics) -/

/-- A filesystem path: an absolute flag plus the list of components. -/
structure FsPath where
  absolute : Bool
  components : List String
deriving DecidableEq

/-- `std::filesystem::path::operator/` (append): an absolute right-hand
side replaces the whole path, otherwise components are concatenated. -/
def FsPath.append (p q : FsPath) : FsPath :=
  if q.absolute then q else ⟨p.absolute, p.components ++ q.components⟩

/-- `std::filesystem::path::filename()`: the last component (or ""). -/
def FsPath.filename (p : FsPath) : String :=
  (p.components.getLast?).getD ""

/-- Index of the last '.' in a list of characters, if any. -/
def lastDotIdx (cs : List Char) : Option Nat :=
  ((List.range cs.length).filter (fun i => cs.get? i = some '.')).getLast?

/-- `std::filesystem::path::extension()` computed on a filename string:
"." and ".." and dotless names have no extension; a leading dot alone
(hidden file) is not an extension; otherwise the suffix from the last
dot (dot included). -/
def strExtension (f : String) : String :=
  if f = "." ∨ f = ".." then ""
  else
    match lastDotIdx f.toList with
    | none => ""
    | some 0 => ""
    | some i => String.mk (f.toList.drop i)

/-- `std::filesystem::path::extension()` of a path. -/
def FsPath.extension (p : FsPath) : String :=
  strExtension p.filename

/-- One step of lexical normalisation; the stack is kept reversed. -/
def normFold (abs : Bool) (stack : List String) (c : String) : List String :=
  if c = "." then stack
  else if c = ".." then
    match stack with
    | [] => if abs then [] else [".."]
    | top :: rest => if top = ".." then ".." :: top :: rest else rest
  else c :: stack

/-- `std::filesystem::path::lexically_normal()` restricted to dot
handling: resolves "." and ".." components. -/
def FsPath.normalize (p : FsPath) : FsPath :=
  ⟨p.absolute, (p.components.foldl (normFold p.absolute) []).reverse⟩

/-- A path lies inside a destination directory when, after lexical
normalisation, the destination is a prefix of it. -/
def FsPath.isWithin (dest p : FsPath) : Prop :=
  dest.normalize.absolute = p.normalize.absolute ∧
    dest.normalize.components <+: p.normalize.components

instance (dest p : FsPath) : Decidable (FsPath.isWithin dest p) := by
  unfold FsPath.isWithin
  exact inferInstance

/-! ## Archive extraction (`PackageManager::ExtractPackage`)

The archive (a zip byte string in the source) is modelled as the list of
its entries.  Each entry records its stored name and whether the
fallible per-entry operations of the source succeed on it:
`mz_zip_reader_file_stat` (`statOk`), `mz_zip_reader_extract_to_mem`
(`extractOk`), `fs::create_directories` on the parent (`dirOk`, true
also when the directory already exists) and opening the output stream
(`writeOk`). -/

structure ZipEntryStat where
  m_filename : FsPath
  statOk : Bool
  extractOk : Bool
  dirOk : Bool
  writeOk : Bool
deriving DecidableEq

def statErrorMsg (i : Nat) : String := s!"Error getting file stat: {i}"

def missingDescriptorMsg (ext : String) : String :=
  s!"Package descriptor *{ext} missing"

def extractErrorMsg (f : String) : String := s!"Failed extracting file: {f}"

def mkdirErrorMsg (d : String) : String :=
  s!"Error creating output directory {d}"

def openErrorMsg (f : String) : String :=
  s!"Failed creating destination file: {f}"

/-- Render a path for an error message. -/
def FsPath.render (p : FsPath) : String :=
  (if p.absolute then "/" else "") ++ String.intercalate "/" p.components

/-- First loop of `ExtractPackage` (package_manager.cpp:818-829): stat
every entry, recording whether some entry carries the descriptor
extension; a stat failure aborts with its index. -/
def statLoop (ext : String) : List ZipEntryStat → Nat → Bool → Except String Bool
  | [], _, found => .ok found
  | e :: rest, i, found =>
    if e.statOk = true then
      statLoop ext rest (i + 1) (found || (e.m_filename.extension == ext))
    else .error (statErrorMsg i)

/-- Second loop of `ExtractPackage` (package_manager.cpp:835-863):
extract each entry to memory and write it below `extractPath`,
creating parent directories; the first per-entry failure aborts.
Returns the outcome together with the list of file paths written. -/
def writeLoop (extractPath : FsPath) :
    List ZipEntryStat → List FsPath → Except String Unit × List FsPath
  | [], written => (.ok (), written)
  | e :: rest, written =>
    if e.extractOk = true then
      let finalPath := extractPath.append e.m_filename
      if e.dirOk = true then
        if e.writeOk = true then
          writeLoop extractPath rest (written ++ [finalPath])
        else (.error (openErrorMsg e.m_filename.render), written)
      else (.error (mkdirErrorMsg finalPath.render), written)
    else (.error (extractErrorMsg e.m_filename.render), written)

/-- `PackageManager::ExtractPackage` (package_manager.cpp:801-866):
returns the error string (empty string modelled as `.ok`) and the list
of file paths written under (or, for traversal entries, outside)
`extractPath`. -/
def ExtractPackage (entries : List ZipEntryStat) (extractPath : FsPath)
    (descriptorExt : String) : Except String Unit × List FsPath :=
  match statLoop descriptorExt entries 0 false with
  | .error msg => (.error msg, [])
  | .ok false => (.error (missingDescriptorMsg descriptorExt), [])
  | .ok true => writeLoop extractPath entries []

/-! ### Facts about the extraction loops -/

theorem statLoop_ok_of_stats (ext : String) :
    ∀ (es : List ZipEntryStat) (i : Nat) (found : Bool),
      (∀ e ∈ es, e.statOk = true) →
      statLoop ext es i found =
        .ok (found || es.any (fun e => e.m_filename.extension == ext)) := by
  intro es
  induction es with
  | nil => intro i found _; simp [statLoop]
  | cons e rest ih =>
    intro i found h
    have he : e.statOk = true := h e (List.mem_cons_self e rest)
    have hrest : ∀ x ∈ rest, x.statOk = true :=
      fun x hx => h x (List.mem_cons_of_mem e hx)
    simp only [statLoop, List.any_cons]
    rw [if_pos he, ih (i + 1) _ hrest, Bool.or_assoc]

theorem statLoop_ok_all_stats (ext : String) :
    ∀ (es : List ZipEntryStat) (i : Nat) (found b : Bool),
      statLoop ext es i found = .ok b → ∀ e ∈ es, e.statOk = true := by
  intro es
  induction es with
  | nil => intro i found b _ e he; simp at he
  | cons x rest ih =>
    intro i found b h e he
    by_cases hx : x.statOk = true
    · simp only [statLoop, hx, if_pos rfl] at h
      rcases List.mem_cons.mp he with rfl | hmem
      · exact hx
      · exact ih (i + 1) _ b h e hmem
    · simp [statLoop, hx] at h

theorem writeLoop_ok_written (dest : FsPath) :
    ∀ (es : List ZipEntryStat) (acc : List FsPath),
      (writeLoop dest es acc).1 = .ok () →
      (writeLoop dest es acc).2 =
          acc ++ es.map (fun e => dest.append e.m_filename) ∧
        ∀ e ∈ es, e.extractOk = true ∧ e.dirOk = true ∧ e.writeOk = true := by
  intro es
  induction es with
  | nil => intro acc _; simp [writeLoop]
  | cons e rest ih =>
    intro acc h
    by_cases hex : e.extractOk = true
    · by_cases hdir : e.dirOk = true
      · by_cases hw : e.writeOk = true
        · simp only [writeLoop] at h ⊢
          rw [if_pos hex, if_pos hdir, if_pos hw] at h ⊢
          rcases ih (acc ++ [dest.append e.m_filename]) h with ⟨h2, h3⟩
          constructor
          · rw [h2]; simp
          · intro x hx
            rcases List.mem_cons.mp hx with rfl | hmem
            · exact ⟨hex, hdir, hw⟩
            · exact h3 x hmem
        · simp [writeLoop, hex, hdir, hw] at h
      · simp [writeLoop, hex, hdir] at h
    · simp [writeLoop, hex] at h

/-! ### Claim C1 — path traversal in `ExtractPackage`

`ExtractPackage` performs no check of entry names: each entry is written
to `extractPath / name` verbatim (package_manager.cpp:844), so a stored
name containing ".." escapes the destination directory. -/

/-- Destination directory for the C1 failing input
(`<baseDir>/plugins/<name>-<timestamp>`). -/
def c1Dest : FsPath := ⟨true, ["base", "plugins", "pkg-ts"]⟩

/-- C1 failing archive: a valid descriptor entry plus a path-traversal
entry named `../evil`, every per-entry operation succeeding. -/
def c1Entries : List ZipEntryStat :=
  [⟨⟨false, ["a.wplugin"]⟩, true, true, true, true⟩,
   ⟨⟨false, ["..", "evil"]⟩, true, true, true, true⟩]

/-- C1 (code bug): on an archive holding an entry named `../evil`,
`ExtractPackage` succeeds and writes that entry to
`<destination>/../evil`, a path outside the destination directory; the
traversal entry is not rejected, contradicting the specification
"No file is written outside `destination` (path traversal entries are
rejected)". -/
theorem extractPackage_writes_outside_destination :
    (ExtractPackage c1Entries c1Dest ".wplugin").1 = .ok () ∧
      (ExtractPackage c1Entries c1Dest ".wplugin").2 =
        [c1Dest.append ⟨false, ["a.wplugin"]⟩,
         c1Dest.append ⟨false, ["..", "evil"]⟩] ∧
      ¬ FsPath.isWithin c1Dest (c1Dest.append ⟨false, ["..", "evil"]⟩) := by
  decide

/-! ### Claim C6 — missing descriptor handling in `ExtractPackage` -/

/-- C6 counterexample input: a single entry without the descriptor
extension whose stat fails (a corrupt entry record). -/
def c6StatFailEntries : List ZipEntryStat :=
  [⟨⟨false, ["a.txt"]⟩, false, true, true, true⟩]

def c6Dest : FsPath := ⟨true, ["base", "plugins", "pkg-ts"]⟩

/-- C6 counterexample: no entry of the archive carries the descriptor
extension, yet `ExtractPackage` does not return the missing-descriptor
error — the stat loop (package_manager.cpp:821-823) aborts first with
its own error. -/
theorem extractPackage_stat_error_preempts_missing_descriptor :
    (⟨⟨false, ["a.txt"]⟩, false, true, true, true⟩
        : ZipEntryStat).m_filename.extension ≠ ".wplugin" ∧
      ExtractPackage c6StatFailEntries c6Dest ".wplugin" =
        (.error (statErrorMsg 0), []) ∧
      statErrorMsg 0 ≠ missingDescriptorMsg ".wplugin" := by
  decide

/-- C6 amended: provided every entry's stat succeeds, if no entry of the
archive has an extension equal to the expected descriptor extension,
`ExtractPackage` returns the missing-descriptor error and writes no file
at all; and it returns the success value only if every entry was
extracted and written (one written file below the destination per
entry, in order). -/
theorem extractPackage_missing_descriptor (entries : List ZipEntryStat)
    (dest : FsPath) (ext : String) :
    ((∀ e ∈ entries, e.statOk = true) →
      (∀ e ∈ entries, e.m_filename.extension ≠ ext) →
      ExtractPackage entries dest ext =
        (.error (missingDescriptorMsg ext), [])) ∧
    ((ExtractPackage entries dest ext).1 = .ok () →
      (ExtractPackage entries dest ext).2 =
          entries.map (fun e => dest.append e.m_filename) ∧
        ∀ e ∈ entries,
          e.statOk = true ∧ e.extractOk = true ∧ e.dirOk = true ∧
            e.writeOk = true) := by
  constructor
  · intro hstat hext
    have hany : entries.any (fun e => e.m_filename.extension == ext) = false := by
      rw [List.any_eq_false]
      intro e he
      simpa using hext e he
    have h := statLoop_ok_of_stats ext entries 0 false hstat
    rw [hany] at h
    simp [ExtractPackage, h]
  · intro hok
    rcases hsl : statLoop ext entries 0 false with msg | b
    · simp [ExtractPackage, hsl] at hok
    · cases b with
      | false => simp [ExtractPackage, hsl] at hok
      | true =>
        have hstats := statLoop_ok_all_stats ext entries 0 false true hsl
        simp only [ExtractPackage, hsl] at hok ⊢
        rcases writeLoop_ok_written dest entries [] hok with ⟨h2, h3⟩
        refine ⟨by simpa using h2, fun e he => ?_⟩
        rcases h3 e he with ⟨hx, hd, hw⟩
        exact ⟨hstats e he, hx, hd, hw⟩

/-- Witness for the amended C6 theorem at a concrete archive. -/
def c6NoDescEntries : List ZipEntryStat :=
  [⟨⟨false, ["a.txt"]⟩, true, true, true, true⟩]

theorem extractPackage_missing_descriptor_witness :
    ExtractPackage c6NoDescEntries c6Dest ".wplugin" =
      (.error (missingDescriptorMsg ".wplugin"), []) :=
  (extractPackage_missing_descriptor c6NoDescEntries c6Dest ".wplugin").1
    (by decide) (by decide)

/-! ## Descriptor file extensions (claim C9) -/

namespace Plugin

/-- `Plugin::kFileExtension` (src/core/plugin.h:87). -/
def kFileExtension : String := ".wplugin"

end Plugin

namespace Module

/-- Modelled from the spec: `Module::kFileExtension` — the module
descriptor extension; the core's module.h is not among the sources.
Spec §6: "module extension `.module`". -/
def kFileExtension : String := ".module"

end Module

namespace PackageManifest

/-- Modelled from the spec: `PackageManifest::kFileExtension` — the
manifest extension; package_manifest.h is not among the sources.
Spec §6: "manifest extension `.manifest`". -/
def kFileExtension : String := ".manifest"

end PackageManifest

/-- The folder/extension table (package_manager.cpp:17-21), indexed by
whether the package is a plugin. -/
def packageTypes : List (String × String) :=
  [("modules", Module.kFileExtension), ("plugins", Plugin.kFileExtension)]

/-- C9 counterexample: the plugin descriptor extension on disk is not
".plugin", so the claimed extension triple does not hold. -/
theorem descriptor_extensions_not_as_claimed :
    ¬ (Plugin.kFileExtension = ".plugin" ∧ Module.kFileExtension = ".module" ∧
        PackageManifest.kFileExtension = ".manifest") := by
  decide

/-- C9 amended: the plugin descriptor extension is ".wplugin"
(src/core/plugin.h:87); the module and manifest extensions, whose
defining headers are not among the sources, are modelled from the spec
as ".module" and ".manifest". -/
theorem descriptor_extensions :
    Plugin.kFileExtension = ".wplugin" ∧ Module.kFileExtension = ".module" ∧
      PackageManifest.kFileExtension = ".manifest" := by
  decide

/-! ## Local packages and duplicate resolution (claim C4)

`LoadLocalPackages` (package_manager.cpp:103-153) parses every
descriptor file into a `LocalPackage` and folds the parsed candidates
into the catalogue, resolving duplicate names.  The candidate stream
below is the sequence of successfully parsed, platform-compatible
descriptors in directory-walk order.  The fields inline the parts of
`LocalPackage` and its descriptor that the dependency logic reads
(`type` is the language for a module package and "plugin" for a plugin
package; `languageModule` and `dependencies` come from the plugin
descriptor and are empty for modules). -/

structure Dependency where
  name : String
  optional : Bool
  supportedPlatforms : List String
  requestedVersion : Option Int
deriving DecidableEq

structure LocalPackage where
  name : String
  ptype : String
  path : FsPath
  version : Int
  languageModule : String
  dependencies : List Dependency
deriving DecidableEq

/-- Duplicate-name resolution of `LoadLocalPackages`
(package_manager.cpp:132-151): a new candidate either joins the
catalogue or, on a name clash, replaces the existing entry in place
exactly when its version is strictly higher. -/
def insertLocalPackage : List LocalPackage → LocalPackage → List LocalPackage
  | [], p => [p]
  | q :: rest, p =>
    if q.name = p.name then
      (if q.version ≠ p.version then (if q.version < p.version then p else q)
       else q) :: rest
    else q :: insertLocalPackage rest p

/-- `LoadLocalPackages` restricted to catalogue construction: fold the
parsed candidates, in walk order, into the (initially cleared)
catalogue. -/
def loadLocalPackages (candidates : List LocalPackage) : List LocalPackage :=
  candidates.foldl insertLocalPackage []

/-- C7/C4 helper: `PackageManager::FindLocalPackage`
(package_manager.cpp:694-701), first entry with the given name. -/
def findLocalPackage : List LocalPackage → String → Option LocalPackage
  | [], _ => none
  | p :: rest, nm => if p.name = nm then some p else findLocalPackage rest nm

/-- C4: when two local descriptor files parse to the same package name,
the higher version is kept; on equal versions the first-encountered
package is kept and the second ignored. -/
theorem loadLocal_duplicate_higher_version_wins (p q : LocalPackage)
    (h : q.name = p.name) :
    loadLocalPackages [p, q] = [if p.version < q.version then q else p] := by
  simp only [loadLocalPackages, List.foldl_cons, List.foldl_nil]
  rw [show insertLocalPackage [] p = [p] from rfl]
  show (if p.name = q.name then _ else _) = _
  rw [if_pos h.symm]
  by_cases hv : p.version = q.version
  · rw [if_neg (by simp [hv]), if_neg (by simp [hv])]
  · rw [if_pos hv]

def c4First : LocalPackage := ⟨"x", "plugin", ⟨false, []⟩, 1, "lang", []⟩

def c4Second : LocalPackage := ⟨"x", "plugin", ⟨false, []⟩, 2, "lang", []⟩

/-- Witness for C4 at a concrete duplicate pair (versions 1 and 2): the
second, higher-version package is the one kept. -/
theorem loadLocal_duplicate_higher_version_wins_witness :
    loadLocalPackages [c4First, c4Second] = [c4Second] :=
  (loadLocal_duplicate_higher_version_wins c4First c4Second rfl).trans (by decide)

/-! ## The provider facade: `IsPluginLoaded` (claim C7) -/

/-- Plugin lifecycle states.  The public enum lives in plugin.hpp, which
is not among the sources; the state set is modelled from the spec §3
(`state ∈ {NotLoaded, Error, Loaded, Running, Terminating}`), matching
the states the core sources set (src/core/plugin.h:71-85). -/
inductive PluginState
  | notLoaded
  | error
  | loaded
  | running
  | terminating
deriving DecidableEq

/-- The slice of a runtime `Plugin` that `IsPluginLoaded` reads: name,
state, and descriptor version. -/
structure PluginInfo where
  name : String
  state : PluginState
  version : Int
deriving DecidableEq

/-- Modelled from the spec: `PluginManager::FindPlugin` returns the
plugin with the given name (plugin_manager.cpp is not among the
sources); names are unique by the discovery invariant, so the first
match is the match. -/
def findPluginByName : List PluginInfo → String → Option PluginInfo
  | [], _ => none
  | p :: rest, nm => if p.name = nm then some p else findPluginByName rest nm

/-- `PlugifyProvider::IsPluginLoaded` (plugify_provider.cpp:37-57), the
plugin-manager state given as the list of current plugins. -/
def IsPluginLoaded (plugins : List PluginInfo) (nm : String)
    (requiredVersion : Option Int) (minimum : Bool) : Bool :=
  match findPluginByName plugins nm with
  | none => false
  | some plugin =>
    if plugin.state ≠ PluginState.loaded ∧ plugin.state ≠ PluginState.running
    then false
    else
      match requiredVersion with
      | some v =>
        if minimum = true then decide (v ≤ plugin.version)
        else decide (plugin.version = v)
      | none => true

/-- C7: `IsPluginLoaded` returns true exactly when the named plugin
exists, its state is Loaded or Running (so a Terminating plugin is
reported as not loaded), and the version condition holds: at least the
requested version when `minimum` is set, exactly the requested version
otherwise. -/
theorem isPluginLoaded_iff (plugins : List PluginInfo) (nm : String)
    (rv : Option Int) (minimum : Bool) :
    IsPluginLoaded plugins nm rv minimum = true ↔
      ∃ p, findPluginByName plugins nm = some p ∧
        (p.state = PluginState.loaded ∨ p.state = PluginState.running) ∧
        ∀ v, rv = some v →
          if minimum = true then v ≤ p.version else p.version = v := by
  cases hf : findPluginByName plugins nm with
  | none => simp [IsPluginLoaded, hf]
  | some p =>
    simp only [IsPluginLoaded, hf, Option.some.injEq]
    by_cases hs : p.state ≠ PluginState.loaded ∧ p.state ≠ PluginState.running
    · rw [if_pos hs]
      simp only [Bool.false_eq_true, false_iff]
      rintro ⟨q, rfl, hq, _⟩
      rcases hq with hq | hq
      · exact hs.1 hq
      · exact hs.2 hq
    · rw [if_neg hs]
      rw [not_and_or, not_not, not_not] at hs
      cases rv with
      | none =>
        simp only [reduceCtorEq, false_implies, forall_const, and_true]
        constructor
        · intro _; exact ⟨p, rfl, hs⟩
        · rintro ⟨q, rfl, _⟩; trivial
      | some v =>
        constructor
        · intro h
          refine ⟨p, rfl, hs, fun w hw => ?_⟩
          cases hw
          cases minimum with
          | true => simpa using h
          | false => simpa using h
        · rintro ⟨q, rfl, _, hcond⟩
          have := hcond v rfl
          cases minimum with
          | true => simpa using this
          | false => simpa using this

/-! ## The WinHTTP downloader: `StartRequest` (claim C2)

`HTTPDownloaderWinHttp::StartRequest`
(http_downloader_winhttp.cpp:190-249) is embedded as a function of the
outcomes of the four WinHTTP calls it makes.  `sendOk` means
`WinHttpSendRequest` either returned TRUE or failed with
ERROR_IO_PENDING.  The embedding records the callback invocations the
function performs (by the status passed), the status-code field, the
request state afterwards, and whether the request object was freed. -/

/-- Request states (http_downloader.h is not among the sources; the set
is modelled from the backend source, which stores Started, Receiving
and Complete, plus the initial Pending of a freshly created request). -/
inductive ReqState
  | pending
  | cancelled
  | started
  | receiving
  | complete
deriving DecidableEq

/-- Modelled from the spec: the sentinel `HTTP_STATUS_ERROR` for
transport-level failures, "distinct from any valid HTTP status"
(http_downloader.h is not among the sources). -/
def HTTP_STATUS_ERROR : Int := -1

/-- Success/failure of each WinHTTP call made by `StartRequest`. -/
structure WinHttpOutcomes where
  crackOk : Bool
  connectOk : Bool
  openOk : Bool
  sendOk : Bool
deriving DecidableEq

structure StartResult where
  returned : Bool
  callbackStatuses : List Int
  statusCode : Option Int
  state : ReqState
  deletedReq : Bool
deriving DecidableEq

/-- `HTTPDownloaderWinHttp::StartRequest`.  The four branches mirror the
source: `WinHttpCrackUrl` failure (lines 205-210) and `WinHttpConnect`
failure (lines 216-221) invoke the completion callback with
`HTTP_STATUS_ERROR`, free the request and return false;
`WinHttpOpenRequest` failure (lines 225-229) closes the connection and
returns false without invoking the callback and without freeing the
request; a synchronous `WinHttpSendRequest` failure (lines 239-243)
records `HTTP_STATUS_ERROR` and state Complete, after which line 246
unconditionally overwrites the state with Started. -/
def StartRequest (o : WinHttpOutcomes) (st0 : ReqState) : StartResult :=
  if o.crackOk = false then
    { returned := false, callbackStatuses := [HTTP_STATUS_ERROR],
      statusCode := none, state := st0, deletedReq := true }
  else if o.connectOk = false then
    { returned := false, callbackStatuses := [HTTP_STATUS_ERROR],
      statusCode := none, state := st0, deletedReq := true }
  else if o.openOk = false then
    { returned := false, callbackStatuses := [], statusCode := none,
      state := st0, deletedReq := false }
  else
    { returned := true, callbackStatuses := [],
      statusCode := if o.sendOk = false then some HTTP_STATUS_ERROR else none,
      state := ReqState.started, deletedReq := false }

/-- C2 (code bug): when `WinHttpOpenRequest` fails, `StartRequest`
returns false with zero callback invocations, and the request is
neither marked Complete (the only state from which the poll loop
delivers a completion callback) nor freed — the onComplete callback
fires zero times for that request, not exactly once.  For contrast, the
`WinHttpCrackUrl` failure path does invoke the callback exactly once
with `HTTP_STATUS_ERROR`; and on a synchronous `WinHttpSendRequest`
failure the recorded Complete state is overwritten with Started by line
246, so that path also never delivers its completion. -/
theorem startRequest_open_failure_drops_callback :
    StartRequest ⟨true, true, false, true⟩ ReqState.pending =
        { returned := false, callbackStatuses := [], statusCode := none,
          state := ReqState.pending, deletedReq := false } ∧
      (StartRequest ⟨false, true, true, true⟩
          ReqState.pending).callbackStatuses = [HTTP_STATUS_ERROR] ∧
      (StartRequest ⟨true, true, true, false⟩ ReqState.pending).state =
        ReqState.started ∧
      (StartRequest ⟨true, true, true, false⟩ ReqState.pending).statusCode =
        some HTTP_STATUS_ERROR := by
  decide

/-! ## The JIT callback trampoline (claim C8)

`JitCallback::GetJitFunc` (include/plugify/jit/callback.cpp).  The
argument scan (lines 70-85) only needs to know, for each signature
argument, whether asmjit classifies its type id as an integer type
(`TypeUtils::isInt`), a float type (`TypeUtils::isFloat`), or neither;
that classification is `TypeClass`.  The repeated scans at lines
107-118 and 174-187 test the same condition and cannot fire once the
first scan has passed. -/

/-- The spec §3 parameter types plus the per-parameter by-reference
flag; `arrayOf` covers the ArrayOf(primitive) family. -/
inductive ValueType
  | void
  | bool
  | char8
  | char16
  | int8
  | int16
  | int32
  | int64
  | uint8
  | uint16
  | uint32
  | uint64
  | pointer
  | float
  | double
  | function
  | string
  | arrayOf (elem : ValueType)
deriving DecidableEq

/-- asmjit's classification of a type id at the scan: an integer
register class, a float (SIMD) register class, or neither — the last
meaning the value does not fit a machine-pointer-sized slot. -/
inductive TypeClass
  | intClass
  | floatClass
  | wideClass
deriving DecidableEq

/-- Modelled from the spec: the `GetValueTypeId` mapping of
jit/utils.hpp (not among the sources).  Every scalar fitting a 64-bit
slot (booleans, characters, integers up to 64 bits, pointers, function
pointers) maps to an integer type id; Float and Double map to float
type ids; String and ArrayOf map to type ids that are neither — they
are wider than a machine pointer (spec §4.E); Void's type id is also
neither an integer nor a float class for asmjit. -/
def GetValueTypeId : ValueType → TypeClass
  | .float => .floatClass
  | .double => .floatClass
  | .string => .wideClass
  | .arrayOf _ => .wideClass
  | .void => .wideClass
  | _ => .intClass

/-- A method parameter: value type plus by-reference flag. -/
structure MethodParam where
  valueType : ValueType
  ref : Bool
deriving DecidableEq

/-- The slice of `MethodRef` that `GetJitFunc` reads (the calling
convention and variadic index do not influence the argument scan). -/
structure Method where
  paramTypes : List MethodParam
  retType : ValueType
deriving DecidableEq

def widthErrorMsg : String := "Parameters wider than 64bits not supported"

def runtimeInvalidMsg : String := "JitRuntime invalid"

/-- Signature construction of the second `GetJitFunc` overload
(callback.cpp:244-255): when the hidden-return policy applies, the
original return type's id is prepended as a leading argument; each
parameter is lowered to Pointer when passed by reference. -/
def buildSigArgs (isHiddenParam : Bool) (m : Method) : List TypeClass :=
  (if isHiddenParam then [GetValueTypeId m.retType] else []) ++
    m.paramTypes.map fun p =>
      GetValueTypeId (if p.ref then ValueType.pointer else p.valueType)

/-- The first `GetJitFunc` overload (callback.cpp:22-242) restricted to
its control flow: return the cached address if emission already
happened; fail with `runtimeInvalidMsg` when the JIT runtime is gone;
fail with `widthErrorMsg` when some signature argument is neither an
integer nor a float class (lines 70-85); otherwise the result is that
of `asmjit::JitRuntime::add` (line 232), given here as `emit`. -/
def GetJitFuncSig (cached : Option Nat) (rtAlive : Bool)
    (emit : Except String Nat) (args : List TypeClass) : Except String Nat :=
  match cached with
  | some f => .ok f
  | none =>
    if rtAlive = false then .error runtimeInvalidMsg
    else if args.all fun t =>
        t == TypeClass.intClass || t == TypeClass.floatClass then emit
    else .error widthErrorMsg

/-- The second `GetJitFunc` overload (callback.cpp:244-255): build the
signature from the method and the hidden-return policy, then emit. -/
def GetJitFunc (cached : Option Nat) (rtAlive : Bool)
    (emit : Except String Nat) (m : Method) (hidden : ValueType → Bool) :
    Except String Nat :=
  GetJitFuncSig cached rtAlive emit (buildSigArgs (hidden m.retType) m)

theorem TypeClass.not_wide (t : TypeClass) (h : t ≠ TypeClass.wideClass) :
    t = TypeClass.intClass ∨ t = TypeClass.floatClass := by
  cases t
  · exact Or.inl rfl
  · exact Or.inr rfl
  · exact absurd rfl h

/-- C8: on a fresh trampoline with a live runtime, a parameter whose
type is wider than a machine pointer (neither integer nor float class)
and not passed by reference makes `GetJitFunc` reject emission with the
unsupported-width error (a null address with the error string set,
modelled as `.error widthErrorMsg`); when every parameter is either
by-reference (hence lowered to a pointer) or of a class fitting a
64-bit slot, and no hidden-return argument is introduced, the width
error never occurs and the result is the emission outcome. -/
theorem getJitFunc_rejects_wide_params (emit : Except String Nat)
    (m : Method) (hidden : ValueType → Bool) :
    ((∃ p ∈ m.paramTypes,
        p.ref = false ∧ GetValueTypeId p.valueType = TypeClass.wideClass) →
      GetJitFunc none true emit m hidden = .error widthErrorMsg) ∧
    ((∀ p ∈ m.paramTypes,
        p.ref = true ∨ GetValueTypeId p.valueType ≠ TypeClass.wideClass) →
      hidden m.retType = false →
      GetJitFunc none true emit m hidden = emit) := by
  constructor
  · rintro ⟨p, hp, href, hwide⟩
    have hmem : TypeClass.wideClass ∈ buildSigArgs (hidden m.retType) m := by
      unfold buildSigArgs
      refine List.mem_append_right _ ?_
      refine List.mem_map.mpr ⟨p, hp, ?_⟩
      rw [href]
      simpa using hwide
    have hall : (buildSigArgs (hidden m.retType) m).all
        (fun t => t == TypeClass.intClass || t == TypeClass.floatClass) =
          false := by
      by_contra hne
      rw [Bool.not_eq_false] at hne
      have := List.all_eq_true.mp hne TypeClass.wideClass hmem
      exact absurd this (by decide)
    simp [GetJitFunc, GetJitFuncSig, hall]
  · intro hnarrow hhid
    have hall : (buildSigArgs (hidden m.retType) m).all
        (fun t => t == TypeClass.intClass || t == TypeClass.floatClass) =
          true := by
      rw [List.all_eq_true]
      intro t ht
      unfold buildSigArgs at ht
      rw [hhid] at ht
      simp only [if_neg Bool.false_ne_true, List.nil_append] at ht
      rcases List.mem_map.mp ht with ⟨p, hp, rfl⟩
      rcases hnarrow p hp with href | hwide
      · rw [href, if_pos rfl]; decide
      · cases hr : p.ref with
        | true => rw [if_pos rfl]; decide
        | false =>
          rw [if_neg (by decide)]
          rcases TypeClass.not_wide _ hwide with h | h <;> rw [h] <;> decide
    simp [GetJitFunc, GetJitFuncSig, hall]

/-- C8 witness method: one non-reference String parameter. -/
def c8Method : Method := ⟨[⟨ValueType.string, false⟩], ValueType.void⟩

/-- Witness for C8: the concrete method with a non-reference String
parameter is rejected with the unsupported-width error. -/
theorem getJitFunc_rejects_wide_params_witness :
    GetJitFunc none true (.ok 42) c8Method (fun _ => false) =
      .error widthErrorMsg :=
  (getJitFunc_rejects_wide_params (.ok 42) c8Method (fun _ => false)).1
    ⟨⟨ValueType.string, false⟩, by decide, rfl, rfl⟩

/-! ## Remote packages and the catalogue merge (claim C3)

`LoadRemotePackages` (package_manager.cpp:155-213) fetches every
repository manifest and merges their entries into the remote catalogue.
A manifest is modelled as its list of (key, package) entries; the set of
`PackageVersion`s of a remote package is abstracted by the set of its
version numbers (`PackageVersion`s are ordered by version number alone,
so `std::set::merge` is set union on version numbers).  The merge is
embedded sequentially; the spec (§5) requires the concurrent manifest
fetches to merge as if sequentially, and C3 is about the merged
result. -/

structure RemotePackage where
  name : String
  ptype : String
  versions : Finset Int
deriving DecidableEq

/-- A manifest: its (key, RemotePackage) entries. -/
abbrev ManifestEntry := String × RemotePackage

/-- A manifest entry is processed only when its key is non-empty and
matches its package's name (package_manager.cpp:176-179). -/
def validEntry (kv : ManifestEntry) : Prop :=
  ¬ kv.1 = "" ∧ kv.2.name = kv.1

instance (kv : ManifestEntry) : Decidable (validEntry kv) := by
  unfold validEntry
  exact inferInstance

/-- Insertion of one remote package (package_manager.cpp:181-195): a
package with a fresh name is appended; on a name clash the existing
entry absorbs the new version set when the packages are equal —
equality of remote packages being `(name, type)`, modelled from the
spec ("Equality of remote packages is `(name, type)`"; the `operator==`
lives in package.h, which is not among the sources) — and otherwise the
newcomer is ignored with a warning. -/
def insertRemote : List RemotePackage → RemotePackage → List RemotePackage
  | [], p => [p]
  | q :: rest, p =>
    if q.name = p.name then
      (if q.ptype = p.ptype then { q with versions := q.versions ∪ p.versions }
       else q) :: rest
    else q :: insertRemote rest p

/-- Processing of one manifest entry: reject a key/name mismatch,
otherwise insert. -/
def mergeManifestEntry (cat : List RemotePackage) (kv : ManifestEntry) :
    List RemotePackage :=
  if validEntry kv then insertRemote cat kv.2 else cat

/-- `LoadRemotePackages` restricted to catalogue construction: starting
from the cleared catalogue, fold every fetched manifest's entries. -/
def loadRemotePackages (ms : List (List ManifestEntry)) :
    List RemotePackage :=
  ms.foldl (fun cat m => m.foldl mergeManifestEntry cat) []

/-- Union of the version sets of a `(name, type)` pair over a list of
manifest entries (rejected entries contribute nothing). -/
def entryUnion (nm ty : String) : List ManifestEntry → Finset Int
  | [] => ∅
  | kv :: es =>
    (if validEntry kv ∧ kv.2.name = nm ∧ kv.2.ptype = ty then kv.2.versions
     else ∅) ∪ entryUnion nm ty es

/-- Per-manifest version set of a `(name, type)` pair. -/
def manifestVersions (nm ty : String) (m : List ManifestEntry) : Finset Int :=
  entryUnion nm ty m

/-- The catalogue has pairwise distinct package names. -/
def namesDistinct (cat : List RemotePackage) : Prop :=
  cat.Pairwise fun a b => a.name ≠ b.name

theorem entryUnion_append (nm ty : String) (a b : List ManifestEntry) :
    entryUnion nm ty (a ++ b) = entryUnion nm ty a ∪ entryUnion nm ty b := by
  induction a with
  | nil => simp [entryUnion]
  | cons kv rest ih => simp [entryUnion, ih, Finset.union_assoc]

theorem insertRemote_mem (cat : List RemotePackage) (p r : RemotePackage) :
    r ∈ insertRemote cat p →
      r ∈ cat ∨ r = p ∨
        ∃ q ∈ cat, q.name = p.name ∧ q.ptype = p.ptype ∧
          r = { q with versions := q.versions ∪ p.versions } := by
  induction cat with
  | nil => intro h; simp [insertRemote] at h; exact Or.inr (Or.inl h)
  | cons q rest ih =>
    intro h
    simp only [insertRemote] at h
    by_cases hn : q.name = p.name
    · rw [if_pos hn] at h
      by_cases ht : q.ptype = p.ptype
      · rw [if_pos ht] at h
        rcases List.mem_cons.mp h with rfl | hmem
        · exact Or.inr (Or.inr ⟨q, List.mem_cons_self q rest, hn, ht, rfl⟩)
        · exact Or.inl (List.mem_cons_of_mem q hmem)
      · rw [if_neg ht] at h
        exact Or.inl h
    · rw [if_neg hn] at h
      rcases List.mem_cons.mp h with rfl | hmem
      · exact Or.inl (List.mem_cons_self r rest)
      · rcases ih hmem with h1 | h2 | ⟨x, hx, h3⟩
        · exact Or.inl (List.mem_cons_of_mem q h1)
        · exact Or.inr (Or.inl h2)
        · exact Or.inr (Or.inr ⟨x, List.mem_cons_of_mem q hx, h3⟩)

theorem insertRemote_name_mem (cat : List RemotePackage)
    (p r : RemotePackage) (h : r ∈ insertRemote cat p) :
    r.name ∈ cat.map RemotePackage.name ∨ r.name = p.name := by
  rcases insertRemote_mem cat p r h with h1 | rfl | ⟨q, hq, hqn, _, rfl⟩
  · exact Or.inl (List.mem_map_of_mem _ h1)
  · exact Or.inr rfl
  · exact Or.inl (List.mem_map.mpr ⟨q, hq, rfl⟩)

theorem insertRemote_distinct (cat : List RemotePackage) (p : RemotePackage)
    (h : namesDistinct cat) : namesDistinct (insertRemote cat p) := by
  induction cat with
  | nil => simp [insertRemote, namesDistinct]
  | cons q rest ih =>
    rcases List.pairwise_cons.mp h with ⟨hq, hrest⟩
    simp only [insertRemote]
    by_cases hn : q.name = p.name
    · rw [if_pos hn]
      by_cases ht : q.ptype = p.ptype
      · rw [if_pos ht]
        exact List.pairwise_cons.mpr ⟨hq, hrest⟩
      · rw [if_neg ht]
        exact List.pairwise_cons.mpr ⟨hq, hrest⟩
    · rw [if_neg hn]
      refine List.pairwise_cons.mpr ⟨?_, ih hrest⟩
      intro r hr
      rcases insertRemote_name_mem rest p r hr with hmem | hname
      · rcases List.mem_map.mp hmem with ⟨x, hx, hxe⟩
        rw [← hxe]
        exact hq x hx
      · rw [hname]
        exact hn

theorem insertRemote_existing (cat : List RemotePackage)
    (p : RemotePackage) (hdist : namesDistinct cat) :
    ∀ q ∈ cat, ∃ q1 ∈ insertRemote cat p,
      q1.name = q.name ∧ q1.ptype = q.ptype ∧
        q1.versions = q.versions ∪
          (if q.name = p.name ∧ q.ptype = p.ptype then p.versions else ∅) := by
  induction cat with
  | nil => intro q hq; simp at hq
  | cons x rest ih =>
    rcases List.pairwise_cons.mp hdist with ⟨hx, hrest⟩
    intro q hq
    simp only [insertRemote]
    by_cases hn : x.name = p.name
    · rw [if_pos hn]
      rcases List.mem_cons.mp hq with rfl | hmem
      · by_cases ht : q.ptype = p.ptype
        · rw [if_pos ht]
          refine ⟨{ q with versions := q.versions ∪ p.versions },
            List.mem_cons_self _ _, rfl, rfl, ?_⟩
          rw [if_pos ⟨hn, ht⟩]
        · rw [if_neg ht]
          refine ⟨q, List.mem_cons_self _ _, rfl, rfl, ?_⟩
          rw [if_neg (fun hc => ht hc.2)]
          simp
      · have hqn : q.name ≠ p.name := by
          rw [← hn]; exact fun hc => (hx q hmem) hc.symm
        refine ⟨q, ?_, rfl, rfl, ?_⟩
        · exact List.mem_cons_of_mem _ hmem
        · rw [if_neg (fun hc => hqn hc.1)]
          simp
    · rw [if_neg hn]
      rcases List.mem_cons.mp hq with rfl | hmem
      · refine ⟨q, List.mem_cons_self _ _, rfl, rfl, ?_⟩
        rw [if_neg (fun hc => hn hc.1)]
        simp
      · rcases ih hrest q hmem with ⟨q1, hq1, he⟩
        exact ⟨q1, List.mem_cons_of_mem _ hq1, he⟩

theorem insertRemote_new (cat : List RemotePackage) (p : RemotePackage)
    (h : ∀ q ∈ cat, q.name ≠ p.name) : insertRemote cat p = cat ++ [p] := by
  induction cat with
  | nil => simp [insertRemote]
  | cons x rest ih =>
    simp only [insertRemote]
    rw [if_neg (h x (List.mem_cons_self x rest)), List.cons_append]
    rw [ih fun q hq => h q (List.mem_cons_of_mem x hq)]

theorem insertRemote_covers (cat : List RemotePackage) (p : RemotePackage) :
    ∃ q ∈ insertRemote cat p, q.name = p.name := by
  induction cat with
  | nil => exact ⟨p, by simp [insertRemote], rfl⟩
  | cons x rest ih =>
    simp only [insertRemote]
    by_cases hn : x.name = p.name
    · rw [if_pos hn]
      by_cases ht : x.ptype = p.ptype
      · rw [if_pos ht]
        exact ⟨_, List.mem_cons_self _ _, hn⟩
      · rw [if_neg ht]
        exact ⟨x, List.mem_cons_self _ _, hn⟩
    · rw [if_neg hn]
      rcases ih with ⟨q, hq, hqn⟩
      exact ⟨q, List.mem_cons_of_mem x hq, hqn⟩

theorem insertRemote_keeps_names (cat : List RemotePackage)
    (p : RemotePackage) :
    ∀ q ∈ cat, ∃ q1 ∈ insertRemote cat p, q1.name = q.name := by
  induction cat with
  | nil => intro q hq; simp at hq
  | cons x rest ih =>
    intro q hq
    simp only [insertRemote]
    by_cases hn : x.name = p.name
    · rw [if_pos hn]
      by_cases ht : x.ptype = p.ptype
      · rw [if_pos ht]
        rcases List.mem_cons.mp hq with rfl | hmem
        · exact ⟨_, List.mem_cons_self _ _, rfl⟩
        · exact ⟨q, List.mem_cons_of_mem _ hmem, rfl⟩
      · rw [if_neg ht]
        exact ⟨q, hq, rfl⟩
    · rw [if_neg hn]
      rcases List.mem_cons.mp hq with rfl | hmem
      · exact ⟨q, List.mem_cons_self _ _, rfl⟩
      · rcases ih q hmem with ⟨q1, h1, h2⟩
        exact ⟨q1, List.mem_cons_of_mem _ h1, h2⟩

theorem mergeEntry_name_preserved (cat : List RemotePackage)
    (kv : ManifestEntry) :
    ∀ q ∈ cat, ∃ q1 ∈ mergeManifestEntry cat kv, q1.name = q.name := by
  intro q hq
  unfold mergeManifestEntry
  by_cases hv : validEntry kv
  · rw [if_pos hv]
    exact insertRemote_keeps_names cat kv.2 q hq
  · rw [if_neg hv]
    exact ⟨q, hq, rfl⟩

theorem insertRemote_src (cat : List RemotePackage) (p : RemotePackage)
    (hdist : namesDistinct cat) :
    ∀ q1 ∈ insertRemote cat p,
      (∃ q ∈ cat, q1.name = q.name ∧ q1.ptype = q.ptype ∧
        q1.versions = q.versions ∪
          (if p.name = q.name ∧ p.ptype = q.ptype then p.versions else ∅)) ∨
      ((∀ q ∈ cat, q.name ≠ p.name) ∧ q1 = p) := by
  induction cat with
  | nil =>
    intro q1 h1
    simp only [insertRemote, List.mem_singleton] at h1
    exact Or.inr ⟨by simp, h1⟩
  | cons x rest ih =>
    rcases List.pairwise_cons.mp hdist with ⟨hx, hrest⟩
    intro q1 h1
    simp only [insertRemote] at h1
    by_cases hn : x.name = p.name
    · rw [if_pos hn] at h1
      by_cases ht : x.ptype = p.ptype
      · rw [if_pos ht] at h1
        rcases List.mem_cons.mp h1 with rfl | hmem
        · exact Or.inl ⟨x, List.mem_cons_self x rest, rfl, rfl,
            by rw [if_pos ⟨hn.symm, ht.symm⟩]⟩
        · refine Or.inl ⟨q1, List.mem_cons_of_mem x hmem, rfl, rfl, ?_⟩
          rw [if_neg (fun hc => (hx q1 hmem) (hn.trans hc.1))]
          simp
      · rw [if_neg ht] at h1
        rcases List.mem_cons.mp h1 with rfl | hmem
        · refine Or.inl ⟨q1, List.mem_cons_self q1 rest, rfl, rfl, ?_⟩
          rw [if_neg (fun hc => ht hc.2.symm)]
          simp
        · refine Or.inl ⟨q1, List.mem_cons_of_mem x hmem, rfl, rfl, ?_⟩
          rw [if_neg (fun hc => (hx q1 hmem) (hn.trans hc.1))]
          simp
    · rw [if_neg hn] at h1
      rcases List.mem_cons.mp h1 with rfl | hmem
      · refine Or.inl ⟨q1, List.mem_cons_self q1 rest, rfl, rfl, ?_⟩
        rw [if_neg (fun hc => hn hc.1.symm)]
        simp
      · rcases ih hrest q1 hmem with ⟨q, hq, he⟩ | ⟨habs, he⟩
        · exact Or.inl ⟨q, List.mem_cons_of_mem x hq, he⟩
        · refine Or.inr ⟨?_, he⟩
          intro q hq
          rcases List.mem_cons.mp hq with rfl | hqm
          · exact hn
          · exact habs q hqm

theorem mergeEntry_src (cat : List RemotePackage) (kv : ManifestEntry)
    (hdist : namesDistinct cat) :
    ∀ q1 ∈ mergeManifestEntry cat kv,
      (∃ q ∈ cat, q1.name = q.name ∧ q1.ptype = q.ptype ∧
        q1.versions = q.versions ∪
          (if validEntry kv ∧ kv.2.name = q.name ∧ kv.2.ptype = q.ptype
           then kv.2.versions else ∅)) ∨
      (validEntry kv ∧ (∀ q ∈ cat, q.name ≠ kv.2.name) ∧ q1 = kv.2) := by
  intro q1 h1
  unfold mergeManifestEntry at h1
  by_cases hv : validEntry kv
  · rw [if_pos hv] at h1
    rcases insertRemote_src cat kv.2 hdist q1 h1 with
      ⟨q, hq, e1, e2, e3⟩ | ⟨habs, he⟩
    · refine Or.inl ⟨q, hq, e1, e2, ?_⟩
      rw [e3]
      by_cases hc : kv.2.name = q.name ∧ kv.2.ptype = q.ptype
      · rw [if_pos hc, if_pos ⟨hv, hc.1, hc.2⟩]
      · rw [if_neg hc, if_neg (fun h => hc ⟨h.2.1, h.2.2⟩)]
    · exact Or.inr ⟨hv, habs, he⟩
  · rw [if_neg hv] at h1
    refine Or.inl ⟨q1, h1, rfl, rfl, ?_⟩
    rw [if_neg (fun h => hv h.1)]
    simp

theorem mergeEntry_distinct (cat : List RemotePackage) (kv : ManifestEntry)
    (h : namesDistinct cat) : namesDistinct (mergeManifestEntry cat kv) := by
  unfold mergeManifestEntry
  by_cases hv : validEntry kv
  · rw [if_pos hv]
    exact insertRemote_distinct cat kv.2 h
  · rw [if_neg hv]
    exact h

theorem mergeEntry_covers (cat : List RemotePackage) (kv : ManifestEntry)
    (hv : validEntry kv) :
    ∃ q1 ∈ mergeManifestEntry cat kv, q1.name = kv.2.name := by
  unfold mergeManifestEntry
  rw [if_pos hv]
  exact insertRemote_covers cat kv.2

/-- The merge invariant: after folding the entries `es` into a
catalogue with pairwise distinct names, every catalogue entry's version
set is its previous version set joined with the union of the matching
`(name, type)` contributions of `es`; entries with a fresh name carry
exactly that union. -/
theorem foldl_merge_spec :
    ∀ (es : List ManifestEntry) (cat : List RemotePackage),
      namesDistinct cat →
      namesDistinct (es.foldl mergeManifestEntry cat) ∧
      ∀ r ∈ es.foldl mergeManifestEntry cat,
        (∃ q ∈ cat, r.name = q.name ∧ r.ptype = q.ptype ∧
          r.versions = q.versions ∪ entryUnion q.name q.ptype es) ∨
        ((∀ q ∈ cat, q.name ≠ r.name) ∧
          r.versions = entryUnion r.name r.ptype es) := by
  intro es
  induction es with
  | nil =>
    intro cat hdist
    refine ⟨hdist, fun r hr => Or.inl ⟨r, hr, rfl, rfl, by simp [entryUnion]⟩⟩
  | cons kv rest ih =>
    intro cat hdist
    rw [List.foldl_cons]
    have hd1 : namesDistinct (mergeManifestEntry cat kv) :=
      mergeEntry_distinct cat kv hdist
    rcases ih (mergeManifestEntry cat kv) hd1 with ⟨hdistF, hmemF⟩
    refine ⟨hdistF, fun r hr => ?_⟩
    rcases hmemF r hr with ⟨q1, hq1, e1, e2, e3⟩ | ⟨habs, he⟩
    · rcases mergeEntry_src cat kv hdist q1 hq1 with
        ⟨q, hq, f1, f2, f3⟩ | ⟨hv, hnone, rfl⟩
      · refine Or.inl ⟨q, hq, e1.trans f1, e2.trans f2, ?_⟩
        rw [e3, f3, entryUnion, f1, f2, Finset.union_assoc]
      · refine Or.inr ⟨?_, ?_⟩
        · intro q hq hc
          exact (hnone q hq) (hc.trans e1)
        · rw [e3, entryUnion, e1, e2,
            if_pos ⟨hv, rfl, rfl⟩]
    · refine Or.inr ⟨?_, ?_⟩
      · intro q hq
        rcases mergeEntry_name_preserved cat kv q hq with ⟨q1, hq1, he1⟩
        rw [← he1]
        exact habs q1 hq1
      · rw [he, entryUnion]
        by_cases hv : validEntry kv
        · rcases mergeEntry_covers cat kv hv with ⟨q1, hq1, he1⟩
          rw [if_neg ?_]
          · simp
          · rintro ⟨-, hname, -⟩
            exact (habs q1 hq1) (he1.trans hname)
        · rw [if_neg (fun h => hv h.1)]
          simp

theorem loadRemote_eq_flatten (ms : List (List ManifestEntry)) :
    loadRemotePackages ms = ms.flatten.foldl mergeManifestEntry [] := by
  unfold loadRemotePackages
  generalize ([] : List RemotePackage) = cat
  induction ms generalizing cat with
  | nil => simp
  | cons m rest ih =>
    rw [List.flatten_cons, List.foldl_append, List.foldl_cons]
    exact ih _

theorem entryUnion_flatten (nm ty : String)
    (ms : List (List ManifestEntry)) :
    entryUnion nm ty ms.flatten =
      List.foldr (fun m s => manifestVersions nm ty m ∪ s) ∅ ms := by
  induction ms with
  | nil => simp [entryUnion]
  | cons m rest ih =>
    rw [List.flatten_cons, entryUnion_append, List.foldr_cons, ih]
    rfl

/-- C3: after processing the remote manifests, the version set of every
entry of the resulting remote catalogue equals the union, across all
processed manifests, of that `(name, type)`'s version sets (map keys
differing from the package name having been rejected). -/
theorem loadRemote_versions_union (ms : List (List ManifestEntry))
    (r : RemotePackage) (hr : r ∈ loadRemotePackages ms) :
    r.versions =
      List.foldr (fun m s => manifestVersions r.name r.ptype m ∪ s) ∅ ms := by
  rw [loadRemote_eq_flatten] at hr
  rcases (foldl_merge_spec ms.flatten [] (by simp [namesDistinct])).2 r hr
    with ⟨q, hq, -⟩ | ⟨-, he⟩
  · simp at hq
  · rw [he, entryUnion_flatten]

/-- C3 witness input: two manifests both contributing versions for the
package ("a", "plugin"). -/
def c3Manifests : List (List ManifestEntry) :=
  [[("a", ⟨"a", "plugin", {1, 2}⟩)], [("a", ⟨"a", "plugin", {2, 3}⟩)]]

/-- Witness for C3: the merged catalogue entry carries the union
{1, 2, 3} of the two manifests' version sets. -/
theorem loadRemote_versions_union_witness :
    (⟨"a", "plugin", {1, 2, 3}⟩ : RemotePackage).versions =
      List.foldr (fun m s => manifestVersions "a" "plugin" m ∪ s) ∅
        c3Manifests :=
  loadRemote_versions_union c3Manifests ⟨"a", "plugin", {1, 2, 3}⟩ (by decide)

/-! ## Dependency resolution: `FindDependencies` (claims C5, C10)

`PackageManager::FindDependencies` (package_manager.cpp:225-308) scans
every local plugin, resolves its language module and its required
dependencies against the local and remote catalogues, and accumulates
`missedPackages` (a map from name to (remote package, requested
version)) and `conflictedPackages`. -/

/-- Modelled from the spec: `PackageManager::IsSupportsPlatform` — a
descriptor is platform-applicable when its supported-platforms set is
empty or contains the host tag (the implementation is not among the
sources; spec §3 PlatformTag). -/
def IsSupportsPlatform (host : String) (platforms : List String) : Bool :=
  platforms.isEmpty || platforms.contains host

/-- `PackageManager::FindRemotePackage` (package_manager.cpp:703-710),
first remote entry with the given name. -/
def findRemotePackage : List RemotePackage → String → Option RemotePackage
  | [], _ => none
  | p :: rest, nm => if p.name = nm then some p else findRemotePackage rest nm

/-- `FindLanguageModule` (package_manager.cpp:215-223) on the local
catalogue: first package whose type equals the language name. -/
def findLocalByType : List LocalPackage → String → Option LocalPackage
  | [], _ => none
  | p :: rest, lang =>
    if p.ptype = lang then some p else findLocalByType rest lang

/-- `FindLanguageModule` on the remote catalogue. -/
def findRemoteByType : List RemotePackage → String → Option RemotePackage
  | [], _ => none
  | p :: rest, lang =>
    if p.ptype = lang then some p else findRemoteByType rest lang

/-- One `missedPackages` entry: name, remote package, requested
version (`std::nullopt` = latest). -/
abbrev MissedEntry := String × RemotePackage × Option Int

/-- `_missedPackages.find(name)` over the map modelled as an
association list. -/
def lookupMissed : List MissedEntry → String → Option (RemotePackage × Option Int)
  | [], _ => none
  | e :: rest, nm => if e.1 = nm then some e.2 else lookupMissed rest nm

/-- In-place mutation of the found map entry (`it->second = ...`):
replace the value of the first entry with the given key. -/
def updateFirstMissed :
    List MissedEntry → String → RemotePackage × Option Int → List MissedEntry
  | [], _, _ => []
  | e :: rest, nm, v =>
    if e.1 = nm then (e.1, v) :: rest else e :: updateFirstMissed rest nm v

/-- The requested-version reconciliation of package_manager.cpp:274-289:
a missing new request leaves the entry alone; a new request lands
verbatim when no version was recorded; otherwise the strictly higher of
the two distinct versions wins and an equal version is ignored. -/
def updateRequestedVersion (existing req : Option Int) : Option Int :=
  match req with
  | none => existing
  | some v =>
    match existing with
    | none => some v
    | some e => if e ≠ v then (if e < v then some v else some e) else some e

/-- The check of package_manager.cpp:262: a requested version is given
and the remote package does not carry it (`RemotePackage::Version`
yielding an empty optional — modelled from the spec, package.h not
being among the sources: the requested version must be available among
the package's versions). -/
def requestedUnavailable (req : Option Int) (rp : RemotePackage) : Prop :=
  ∃ v, req = some v ∧ v ∉ rp.versions

instance (req : Option Int) (rp : RemotePackage) :
    Decidable (requestedUnavailable req rp) := by
  unfold requestedUnavailable
  cases req with
  | none => exact isFalse (by simp)
  | some v => exact decidable_of_iff (v ∉ rp.versions) (by simp)

/-- The two result sets of `FindDependencies`. -/
structure DepState where
  missed : List MissedEntry
  conflicted : List LocalPackage
deriving DecidableEq

/-- The body of the dependency loop (package_manager.cpp:248-295) for
one declared dependency of the plugin `pkg`. -/
def processDependency (host : String) (locals : List LocalPackage)
    (remotes : List RemotePackage) (pkg : LocalPackage) (st : DepState)
    (dep : Dependency) : DepState :=
  if dep.optional = true ∨ IsSupportsPlatform host dep.supportedPlatforms = false
  then st
  else
    match findLocalPackage locals dep.name with
    | some _ => st
    | none =>
      match findRemotePackage remotes dep.name with
      | some rp =>
        if requestedUnavailable dep.requestedVersion rp then
          { st with conflicted := st.conflicted ++ [pkg] }
        else
          match lookupMissed st.missed dep.name with
          | none =>
            { st with missed := st.missed ++ [(dep.name, rp, dep.requestedVersion)] }
          | some (erp, ever) =>
            let newVersion := updateRequestedVersion ever dep.requestedVersion
            { st with missed := updateFirstMissed st.missed dep.name (erp, newVersion) }
      | none => { st with conflicted := st.conflicted ++ [pkg] }

/-- The body of the outer loop (package_manager.cpp:229-296) for one
local package: non-plugins are skipped; a plugin's language module is
resolved locally, then remotely (recorded in `missedPackages` at
"latest" when absent from the map), and when it is found in neither
catalogue the plugin joins `conflictedPackages` and its dependency list
is not scanned (the `continue` at line 244). -/
def processPackage (host : String) (locals : List LocalPackage)
    (remotes : List RemotePackage) (st : DepState) (pkg : LocalPackage) :
    DepState :=
  if pkg.ptype = "plugin" then
    match findLocalByType locals pkg.languageModule with
    | some _ =>
      pkg.dependencies.foldl (processDependency host locals remotes pkg) st
    | none =>
      match findRemoteByType remotes pkg.languageModule with
      | some rp =>
        let st1 :=
          match lookupMissed st.missed pkg.languageModule with
          | none =>
            { st with missed := st.missed ++ [(pkg.languageModule, rp, none)] }
          | some _ => st
        pkg.dependencies.foldl (processDependency host locals remotes pkg) st1
      | none => { st with conflicted := st.conflicted ++ [pkg] }
  else st

/-- `PackageManager::FindDependencies`: clear both sets and fold the
outer loop over the local catalogue. -/
def findDependencies (host : String) (locals : List LocalPackage)
    (remotes : List RemotePackage) : DepState :=
  locals.foldl (processPackage host locals remotes) ⟨[], []⟩

theorem updateFirstMissed_self :
    ∀ (ms : List MissedEntry) (nm : String) (v : RemotePackage × Option Int),
      lookupMissed ms nm = some v → updateFirstMissed ms nm v = ms := by
  intro ms
  induction ms with
  | nil => intro nm v h; simp [lookupMissed] at h
  | cons e rest ih =>
    intro nm v h
    simp only [lookupMissed] at h
    simp only [updateFirstMissed]
    by_cases he : e.1 = nm
    · rw [if_pos he] at h
      rw [if_pos he, ← Option.some.inj h]
    · rw [if_neg he] at h
      rw [if_neg he, ih nm v h]

/-- C10: when a plugin's declared language module is found neither
locally nor remotely, the plugin is appended to `conflictedPackages`
and its dependency list is skipped entirely: `missedPackages` is left
unchanged and `conflictedPackages` gains exactly that plugin, whatever
its declared dependencies. -/
theorem processPackage_missing_module_skips_deps (host : String)
    (locals : List LocalPackage) (remotes : List RemotePackage)
    (st : DepState) (pkg : LocalPackage)
    (hplug : pkg.ptype = "plugin")
    (hlocal : findLocalByType locals pkg.languageModule = none)
    (hremote : findRemoteByType remotes pkg.languageModule = none) :
    processPackage host locals remotes st pkg =
      { st with conflicted := st.conflicted ++ [pkg] } := by
  unfold processPackage
  rw [if_pos hplug, hlocal, hremote]

/-- C10 witness plugin: language module "ruby", with a declared
required dependency that would join `missedPackages` were the
dependency list scanned. -/
def c10Plugin : LocalPackage :=
  ⟨"A", "plugin", ⟨false, ["A.wplugin"]⟩, 1, "ruby",
    [⟨"libX", false, [], some 2⟩]⟩

/-- Witness for C10: with "ruby" in neither catalogue but the declared
dependency "libX" available remotely, the plugin lands in the
conflicted set and the missed set stays empty. -/
theorem processPackage_missing_module_skips_deps_witness :
    processPackage "win" [c10Plugin] [⟨"libX", "plugin", {2}⟩] ⟨[], []⟩
        c10Plugin =
      ⟨[], [c10Plugin]⟩ :=
  processPackage_missing_module_skips_deps "win" [c10Plugin]
    [⟨"libX", "plugin", {2}⟩] ⟨[], []⟩ c10Plugin rfl (by decide) (by decide)

theorem updateRequestedVersion_max (v1 v2 : Int) (hne : v1 ≠ v2) :
    updateRequestedVersion (some v1) (some v2) = some (max v1 v2) := by
  show (if v1 ≠ v2 then if v1 < v2 then some v2 else some v1 else some v1) =
    some (max v1 v2)
  rw [if_pos hne]
  rcases lt_or_gt_of_ne hne with h | h
  · rw [if_pos h, max_eq_right h.le]
  · rw [if_neg (not_lt.mpr h.le), max_eq_left h.le]

/-- C5: when a required dependency (platform-applicable, absent
locally, present remotely with the requested version available) is
already recorded in `missedPackages` and a second plugin requests it at
a different version, the entry's recorded requested version afterwards
is the larger of the two versions, the rest of the entry and the state
unchanged; when the two requested versions are equal, the state is
unchanged. -/
theorem processDependency_missed_higher_version_wins (host : String)
    (locals : List LocalPackage) (remotes : List RemotePackage)
    (pkg : LocalPackage) (st : DepState) (dep : Dependency)
    (rp erp : RemotePackage) (v1 v2 : Int)
    (hopt : dep.optional = false)
    (hplat : IsSupportsPlatform host dep.supportedPlatforms = true)
    (hlocal : findLocalPackage locals dep.name = none)
    (hremote : findRemotePackage remotes dep.name = some rp)
    (hreq : dep.requestedVersion = some v2)
    (havail : v2 ∈ rp.versions)
    (hmissed : lookupMissed st.missed dep.name = some (erp, some v1)) :
    (v1 ≠ v2 →
      processDependency host locals remotes pkg st dep =
        { st with missed := updateFirstMissed st.missed dep.name (erp, some (max v1 v2)) }) ∧
    (v1 = v2 → processDependency host locals remotes pkg st dep = st) := by
  have hcond : ¬ (dep.optional = true ∨
      IsSupportsPlatform host dep.supportedPlatforms = false) := by
    simp [hopt, hplat]
  have hunav : ¬ requestedUnavailable dep.requestedVersion rp := by
    rw [hreq]
    rintro ⟨v, hv, hnot⟩
    cases Option.some.inj hv
    exact hnot havail
  have hbase : processDependency host locals remotes pkg st dep =
      { st with missed := updateFirstMissed st.missed dep.name (erp, updateRequestedVersion (some v1) dep.requestedVersion) } := by
    unfold processDependency
    simp only [if_neg hcond, hlocal, hremote, if_neg hunav, hmissed]
  constructor
  · intro hne
    rw [hbase, hreq, updateRequestedVersion_max v1 v2 hne]
  · intro heq
    rw [hbase, hreq]
    cases heq
    have hupd : updateRequestedVersion (some v1) (some v1) = some v1 := by
      show (if v1 ≠ v1 then if v1 < v1 then some v1 else some v1 else some v1) =
        some v1
      rw [if_neg (fun h => h rfl)]
    rw [hupd, updateFirstMissed_self st.missed dep.name (erp, some v1) hmissed]

/-- C5 witness pieces: "libX" already missed at version 1, requested
again at version 2 (available remotely). -/
def c5Remote : RemotePackage := ⟨"libX", "plugin", {1, 2}⟩

def c5State : DepState := ⟨[("libX", c5Remote, some 1)], []⟩

def c5Dep : Dependency := ⟨"libX", false, [], some 2⟩

def c5Pkg : LocalPackage := ⟨"B", "plugin", ⟨false, ["B.wplugin"]⟩, 1, "cpp", [c5Dep]⟩

/-- Witness for C5: the recorded version for "libX" becomes 2 =
max 1 2; the remote-package part of the entry and the conflicted set
are untouched. -/
theorem processDependency_missed_higher_version_wins_witness :
    processDependency "win" [] [c5Remote] c5Pkg c5State c5Dep =
      ⟨[("libX", c5Remote, some 2)], []⟩ :=
  ((processDependency_missed_higher_version_wins "win" [] [c5Remote] c5Pkg
      c5State c5Dep c5Remote c5Remote 1 2 rfl rfl rfl rfl rfl (by decide)
      rfl).1 (by decide)).trans (by decide)

end Plugify
